import Mathlib

/-!
Formal model of the comment-anchor LSP server (repository `LSP_POC`).

The repository contains two drafts of the same Go server: `src/unnamed/part_000`
(the richer draft, referred to below as "part_000") and `src/server/main.go`
(the earlier draft, "server draft").  Both store, per tracked source file, a
JSON `CommentFile` holding one shared `commit` string and a list of `Patch`
records (`message`, `patch`), where `patch` is a diff-match-patch ("dmp")
serialized patch text.  On every `didOpen`/`didChange` the server re-parses each
stored patch text, calls the dmp library's `PatchApply`, and reports a range.

Go strings are modelled as `List Char`; Go `int` as `Int`/`Nat` with explicit
clamping mirroring the source; `uint32(...)` conversions as `% 4294967296`.
External collaborators (the dmp patch codec's `PatchApply` and the `git`
binary) are modelled as explicit function parameters; the parts of their
behaviour the server actually consumes (`PatchFromText` parsing, the shape of
`PatchApply`'s result list, the output of `git branch --contains`) are
modelled directly from the library's / git's behaviour as documented at each
definition.
-/

/-- Go global `contextBefore` (part_000 line 21). -/
def contextBefore : Nat := 5

/-- Go global `contextAfter` (part_000 line 22). -/
def contextAfter : Nat := 5

/-- Model of `protocol.Position` (line/character are `uint32`, modelled as the
natural number obtained by the Go conversion `uint32(x)`). -/
structure Position where
  line : Nat
  character : Nat
deriving DecidableEq

/-- Model of `protocol.Range`.  The Go field `End` is spelled `endPos`. -/
structure Range where
  start : Position
  endPos : Position
deriving DecidableEq

/-- One stored comment record: Go struct `Patch` (part_000 lines 164-167). -/
structure Patch where
  message : List Char
  patch : List Char
deriving DecidableEq

/-- The persisted per-file store: Go struct `CommentFile` (part_000 lines
159-162).  Note the single shared `commit` field for the whole file. -/
structure CommentFile where
  commit : List Char
  patches : List Patch
deriving DecidableEq

/-- Model of `protocol.Diagnostic` as built by `publishDiagnostics`
(severity 4 is `protocol.DiagnosticSeverityHint`). -/
structure Diagnostic where
  range : Range
  severity : Nat
  message : List Char
deriving DecidableEq

/-- Model of Go `strings.Split(s, "\n")`: splits at every newline, keeping
empty pieces; the result is never empty. -/
def goSplit : List Char → List (List Char)
  | [] => [[]]
  | c :: r =>
    if c = '\n' then [] :: goSplit r
    else
      match goSplit r with
      | [] => [[c]]
      | l :: ls => (c :: l) :: ls

/-- Model of Go `strings.TrimSpace`: drop whitespace from both ends. -/
def trimSpace (l : List Char) : List Char :=
  ((l.dropWhile Char.isWhitespace).reverse.dropWhile Char.isWhitespace).reverse

/-- Join pieces with a newline between consecutive pieces (used to model the
line-per-branch output of `git branch --contains`). -/
def intercalateNL : List (List Char) → List Char
  | [] => []
  | [x] => x
  | x :: xs => x ++ '\n' :: intercalateNL xs

/-- The decimal digit characters, used to model Go `fmt.Sprintf("%d", ...)`. -/
def digitChar : Nat → Char
  | 0 => '0'
  | 1 => '1'
  | 2 => '2'
  | 3 => '3'
  | 4 => '4'
  | 5 => '5'
  | 6 => '6'
  | 7 => '7'
  | 8 => '8'
  | _ => '9'

/-- Fuelled decimal printer (structural recursion so that concrete values
reduce inside the kernel); only called with fuel ≥ n. -/
def natCharsAux : Nat → Nat → List Char
  | 0, _ => []
  | _ + 1, 0 => []
  | fuel + 1, n + 1 =>
    natCharsAux fuel ((n + 1) / 10) ++ [digitChar ((n + 1) % 10)]

/-- Model of Go `fmt.Sprintf("%d", n)` for a non-negative value. -/
def natChars (n : Nat) : List Char :=
  if n = 0 then ['0'] else natCharsAux n n

/-- Model of Go `fmt.Sprintf("%d", i)` for an `int`. -/
def intChars (i : Int) : List Char :=
  if i < 0 then '-' :: natChars (-i).toNat else natChars i.toNat

/-- Decimal value of a digit string (model of Go `strconv.Atoi` on a string
of digits, as matched by the dmp patch-header pattern). -/
def digitsToNat (ds : List Char) : Nat :=
  ds.foldl (fun a c => a * 10 + (c.toNat - 48)) 0

/-- Longest digit run at the head of the input, and the remainder: the
behaviour of a greedy `\d+`/`\d*` group. -/
def takeDigits : List Char → (List Char × List Char)
  | [] => ([], [])
  | c :: r =>
    if c.isDigit then
      let (d, rest) := takeDigits r
      (c :: d, rest)
    else ([], c :: r)

/-- Consume an exact literal at the head of the input, returning the
remainder (used to model the fixed parts of the dmp header pattern). -/
def expectLit : List Char → List Char → Option (List Char)
  | [], l => some l
  | _ :: _, [] => none
  | c :: p, x :: l => if x = c then expectLit p l else none

/-- Hex value of a character: model of `url.go`'s `ishex`/`unhex`. -/
def hexVal (c : Char) : Option Nat :=
  if '0' ≤ c ∧ c ≤ '9' then some (c.toNat - 48)
  else if 'a' ≤ c ∧ c ≤ 'f' then some (c.toNat - 87)
  else if 'A' ≤ c ∧ c ≤ 'F' then some (c.toNat - 55)
  else none

/-- Model of Go `url.QueryUnescape`: `%XY` decodes to the character with code
`16*X+Y` (byte sequences are conflated with characters, which is exact for
the ASCII data exercised here), a bad or short escape is an error, and `+`
decodes to a space. -/
def goUnescape : List Char → Option (List Char)
  | [] => some []
  | c :: r =>
    if c = '%' then
      match r with
      | a :: b :: rr => do
        let ha ← hexVal a
        let hb ← hexVal b
        let tail ← goUnescape rr
        pure (Char.ofNat (16 * ha + hb) :: tail)
      | _ => none
    else if c = '+' then (goUnescape r).map (fun t => ' ' :: t)
    else (goUnescape r).map (fun t => c :: t)

/-- Model of `strings.Replace(line, "+", "%2b", -1)` as performed by the dmp
patch parser before unescaping. -/
def goReplacePlus : List Char → List Char
  | [] => []
  | c :: r => (if c = '+' then ['%', '2', 'b'] else [c]) ++ goReplacePlus r

/-- Diff operation kinds of the dmp library. -/
inductive DiffOp where
  | delete
  | insert
  | equal
deriving DecidableEq

/-- Model of the dmp `Patch` struct (`diffs`, `Start1`, `Start2`, `Length1`,
`Length2`); the starts/lengths are Go `int`s. -/
structure DmpPatch where
  diffs : List (DiffOp × List Char)
  start1 : Int
  start2 : Int
  length1 : Int
  length2 : Int
deriving DecidableEq

/-- Parse one `start,length` group of the dmp patch header, following the
greedy pattern `(\d+),?(\d*)` and the adjustment done by `PatchFromText`:
an absent second group means length 1 with the start decremented, a literal
`0` means length 0 with the start kept, and otherwise the start is
decremented and the length is the parsed value. -/
def parseNumPair (l : List Char) : Option (Int × Int × List Char) :=
  let (m1, r1) := takeDigits l
  if m1 = [] then none
  else
    let (m2, r2) :=
      match r1 with
      | ',' :: r => takeDigits r
      | _ => ([], r1)
    if m2 = [] then some ((digitsToNat m1 : Int) - 1, 1, r2)
    else if m2 = ['0'] then some ((digitsToNat m1 : Int), 0, r2)
    else some ((digitsToNat m1 : Int) - 1, (digitsToNat m2 : Int), r2)

/-- Model of the dmp header pattern `^@@ -(\d+),?(\d*) \+(\d+),?(\d*) @@$`,
returning `(start1, length1, start2, length2)` after the `PatchFromText`
adjustments. -/
def matchHeader (l : List Char) : Option (Int × Int × Int × Int) := do
  let r0 ← expectLit ['@', '@', ' ', '-'] l
  let (s1, l1, r1) ← parseNumPair r0
  let r2 ← expectLit [' ', '+'] r1
  let (s2, l2, r3) ← parseNumPair r2
  let r4 ← expectLit [' ', '@', '@'] r3
  if r4 = [] then pure (s1, l1, s2, l2) else none

/-- The body loop of dmp `PatchFromText`: empty lines are skipped; a line is
its sign character followed by content that is `+`-replaced and unescaped
(an unescape failure is an error); signs `-`/`+`/` ` append a diff to the
current patch; a `@` sign closes the current patch and must open a new one
via the header pattern; any other sign is an error.  Error values model the
library's error strings. -/
def parsePatchLines :
    List (List Char) → DmpPatch → List DmpPatch → Except (List Char) (List DmpPatch)
  | [], p, acc => .ok (acc ++ [p])
  | [] :: rest, p, acc => parsePatchLines rest p acc
  | (sign :: lr) :: rest, p, acc =>
    match goUnescape (goReplacePlus lr) with
    | none => .error ("invalid URL escape".data)
    | some line =>
      if sign = '-' then
        parsePatchLines rest { p with diffs := p.diffs ++ [(DiffOp.delete, line)] } acc
      else if sign = '+' then
        parsePatchLines rest { p with diffs := p.diffs ++ [(DiffOp.insert, line)] } acc
      else if sign = ' ' then
        parsePatchLines rest { p with diffs := p.diffs ++ [(DiffOp.equal, line)] } acc
      else if sign = '@' then
        match matchHeader (sign :: lr) with
        | none => .error ("Invalid patch string: ".data ++ (sign :: lr))
        | some (s1, l1, s2, l2) =>
          parsePatchLines rest
            { diffs := [], start1 := s1, start2 := s2, length1 := l1, length2 := l2 }
            (acc ++ [p])
      else .error ("Invalid patch mode".data)

/-- Model of dmp `PatchFromText` (called by `applyPatchAndGetPositions`):
empty input parses to no patches; otherwise the input is split at newlines,
the first line must match the header pattern, and the remaining lines are
consumed by the body loop. -/
def patchFromText (textline : List Char) : Except (List Char) (List DmpPatch) :=
  if textline = [] then .ok []
  else
    match goSplit textline with
    | [] => .ok []
    | l :: rest =>
      match matchHeader l with
      | none => .error ("Invalid patch string: ".data ++ l)
      | some (s1, l1, s2, l2) =>
        parsePatchLines rest
          { diffs := [], start1 := s1, start2 := s2, length1 := l1, length2 := l2 }
          []

/-- Contract of dmp `PatchApply` used by the server: it returns one
applied-flag per (possibly split) patch, so the flag list is empty exactly
when the patch list is empty.  (The library also deep-copies its input, so
the caller's parsed patches are never mutated — in this model immutability
is automatic.) -/
def GoDiffApplyOk (f : List DmpPatch → List Char → List Char × List Bool) : Prop :=
  ∀ ps t, ((f ps t).2 = [] ↔ ps = [])

/-- A codec instance whose hunks always apply (used to instantiate the
abstract `PatchApply` parameter at concrete inputs). -/
def trivialApply (ps : List DmpPatch) (t : List Char) : List Char × List Bool :=
  (t, ps.map (fun _ => true))

/-- A codec instance that reports every hunk as NOT applied (still within the
`PatchApply` contract: one flag per patch). -/
def allFalseApply (ps : List DmpPatch) (t : List Char) : List Char × List Bool :=
  (t, ps.map (fun _ => false))

/-- Go conversion `uint32(i)` of an `int`, as a natural number. -/
def toUInt32 (i : Int) : Nat := (i % 4294967296).toNat

/-- Model of part_000's `applyPatchAndGetPositions` (lines 197-224): parse the
stored patch text; apply it (only the LENGTH of the applied-flags list is
consulted — the per-hunk flags themselves are ignored); then report the range
computed from the parsed patch's `Start1`/`Length1`, which `PatchApply` never
modifies.  The Go code would panic indexing `patches[0]` if the flag list
were non-empty while the patch list were empty; under `GoDiffApplyOk` that
case is unreachable and it is mapped to the same error as the empty case. -/
def applyPatchAndGetPositions
    (patchApply : List DmpPatch → List Char → List Char × List Bool)
    (originalText patchText : List Char) : Except (List Char) Range :=
  match patchFromText patchText with
  | .error e => .error e
  | .ok patches =>
    let results := (patchApply patches originalText).2
    if results.length = 0 then .error ("could not apply current patch".data)
    else
      match patches with
      | [] => .error ("could not apply current patch".data)
      | p :: _ =>
        .ok { start := { line := toUInt32 (p.start1 + (contextBefore : Int)), character := 0 },
              endPos := { line := toUInt32 (p.start1 + p.length1 - (contextAfter : Int)), character := 0 } }

/-- One context/selection loop of `generateAndSaveCommentPatch` (part_000
lines 400-411): `for i := lo; i < hi; i++ { patchText += sign + lines[i] + "\n" }`,
with `n = hi - lo` iterations starting at index `i`.  Indexing out of bounds
(a Go panic) is modelled as `none`. -/
def patchLoopChunks (lines : List (List Char)) (sign : Char) :
    Nat → Nat → Option (List (List Char))
  | _, 0 => some []
  | i, n + 1 => do
    let l ← lines[i]?
    let rest ← patchLoopChunks lines sign (i + 1) n
    pure ((sign :: l ++ ['\n']) :: rest)

/-- The patch-text construction of `generateAndSaveCommentPatch` (part_000
lines 373-411): split the current content into lines, clamp the selection to
the last line, clamp the context window to the file bounds, then emit the
`@@ -a,b +a,b @@` header followed by the context lines, the selected lines as
deletions, the same lines as insertions, and the trailing context lines. -/
def generateCommentPatchText (currentContent : List Char)
    (rngStartLine rngEndLine : Nat) : Option (List Char) := do
  let lines := goSplit currentContent
  let linesCount := lines.length
  let startLine := if rngStartLine ≥ linesCount then linesCount - 1 else rngStartLine
  let endLine := if rngEndLine ≥ linesCount then linesCount - 1 else rngEndLine
  let contextStart := startLine - contextBefore
  let contextEnd := min (endLine + contextAfter + 1) linesCount
  let headerLine :=
    ['@', '@', ' ', '-'] ++ natChars (contextStart + 1) ++ [','] ++
    intChars ((contextEnd : Int) - (contextStart : Int)) ++
    [' ', '+'] ++ natChars (contextStart + 1) ++ [','] ++
    intChars ((contextEnd : Int) - (contextStart : Int)) ++ [' ', '@', '@']
  let ctxPre ← patchLoopChunks lines ' ' contextStart (startLine - contextStart)
  let del ← patchLoopChunks lines '-' startLine (endLine + 1 - startLine)
  let ins ← patchLoopChunks lines '+' startLine (endLine + 1 - startLine)
  let ctxPost ← patchLoopChunks lines ' ' (endLine + 1) (contextEnd - (endLine + 1))
  pure ((headerLine ++ ['\n']) ++ (ctxPre ++ del ++ ins ++ ctxPost).flatten)

/-- `CreateAnchor` immediately followed by recovery: generate the context
patch for a selection and run `applyPatchAndGetPositions` against a (possibly
different) current text. -/
def createThenRecover
    (patchApply : List DmpPatch → List Char → List Char × List Bool)
    (captureContent currentContent : List Char) (s e : Nat) :
    Option (Except (List Char) Range) :=
  (generateCommentPatchText captureContent s e).map
    (fun txt => applyPatchAndGetPositions patchApply currentContent txt)

/-- Model of `isCommitInCurrentBranch` (part_000 lines 187-195): run
`git branch --contains commit` (the `gitBranchOut` oracle), propagate a
command error, otherwise report whether the trimmed output is non-empty. -/
def isCommitInCurrentBranch
    (gitBranchOut : List Char → Except Unit (List Char)) (commit : List Char) :
    Except Unit Bool :=
  match gitBranchOut commit with
  | .error e => .error e
  | .ok output => .ok (!(trimSpace output).isEmpty)

/-- The per-patch step of part_000's `publishDiagnostics` loop (lines
257-270): a patch whose application errors is skipped (`continue`), otherwise
a hint diagnostic at the computed range carries the stored message. -/
def diagnosticOf
    (patchApply : List DmpPatch → List Char → List Char × List Bool)
    (currentContent : List Char) (p : Patch) : Option Diagnostic :=
  match applyPatchAndGetPositions patchApply currentContent p.patch with
  | .error _ => none
  | .ok rng => some { range := rng, severity := 4, message := p.message }

/-- Model of part_000's `publishDiagnostics` (lines 226-280), with the file
content and the loaded `CommentFile` as inputs (the I/O that produces them is
outside the model).  `none` models the early returns that publish nothing: a
git error while checking the commit, or the commit not being on any branch.
Otherwise the published diagnostic list is returned (possibly empty). -/
def publishDiagnostics
    (gitBranchOut : List Char → Except Unit (List Char))
    (patchApply : List DmpPatch → List Char → List Char × List Bool)
    (currentContent : List Char) (commentFile : CommentFile) :
    Option (List Diagnostic) :=
  if commentFile.commit ≠ [] then
    match isCommitInCurrentBranch gitBranchOut commentFile.commit with
    | .error _ => none
    | .ok false => none
    | .ok true => some (commentFile.patches.filterMap (diagnosticOf patchApply currentContent))
  else some (commentFile.patches.filterMap (diagnosticOf patchApply currentContent))

/-- Minimal model of the git repository state the server's two git queries
depend on: the local branches with their tip commits, the name of the
checked-out branch, and the (reflexive) ancestor relation between commits. -/
structure GitRepo where
  branches : List (List Char × List Char)
  head : List Char
  ancestor : List Char → List Char → Bool

/-- Model of the external command `git branch --contains <commit>`: one
output line per local branch whose tip contains the commit (the current
branch prefixed `* `, others by two spaces), lines separated by newlines. -/
def gitBranchContains (repo : GitRepo) (commit : List Char) :
    Except Unit (List Char) :=
  .ok (intercalateNL
    (((repo.branches.filter (fun b => repo.ancestor commit b.2)).map
      (fun b => (if b.1 == repo.head then '*' else ' ') :: ' ' :: b.1))))

/-- The Revision Gate as the SPECIFICATION words it (spec section 4.4), stated
from the spec for comparison with the code's `isCommitInCurrentBranch`:
visible iff the base revision is empty, or is an ancestor of (or equal to,
the relation being reflexive) the HEAD of the branch the caller is on. -/
def specIsVisible (repo : GitRepo) (baseRevision : List Char) : Bool :=
  baseRevision.isEmpty ||
    (match repo.branches.find? (fun b => b.1 == repo.head) with
     | some b => repo.ancestor baseRevision b.2
     | none => false)

/-- The load-or-create + append step of part_000's
`generateAndSaveCommentPatch` (lines 413-438): an existing `CommentFile` is
kept as loaded (its stored commit untouched), a missing one is created with
the current commit, and the new patch record is appended. -/
def addCommentPatch (existing : Option CommentFile) (commitHash : List Char)
    (commentText patchText : List Char) : CommentFile :=
  let commentFile :=
    match existing with
    | none => ({ commit := commitHash, patches := [] } : CommentFile)
    | some cf => cf
  { commentFile with
      patches := commentFile.patches ++ [{ message := commentText, patch := patchText }] }

/-- The same step in the server draft (`src/server/main.go` lines 368-401):
before appending, if the stored commit differs from the current commit the
whole patch list is RESET to empty and the commit replaced. -/
def addCommentPatchServer (existing : Option CommentFile) (commitHash : List Char)
    (commentText patchText : List Char) : CommentFile :=
  let commentFile :=
    match existing with
    | none => ({ commit := commitHash, patches := [] } : CommentFile)
    | some cf => cf
  let commentFile :=
    if commentFile.commit ≠ commitHash then { commit := commitHash, patches := ([] : List Patch) }
    else commentFile
  { commentFile with
      patches := commentFile.patches ++ [{ message := commentText, patch := patchText }] }

/-- The two concurrent `comment.add` calls A and B of spec section 5,
decomposed into the read and write halves of the unguarded
read-modify-write that `generateAndSaveCommentPatch` performs on the comment
file of one path (`os.ReadFile` ... append ... `os.WriteFile`, with no lock
anywhere in the code). -/
inductive RmwStep where
  | readA
  | writeA
  | readB
  | writeB
deriving DecidableEq

/-- State of the concurrency model: the stored patch list on disk, plus the
snapshot each in-flight call has loaded (if it has executed its read). -/
structure RmwState where
  stored : List Patch
  snapA : Option (List Patch)
  snapB : Option (List Patch)
deriving DecidableEq

/-- Effect of one read or write step: a read snapshots the stored list; a
write stores the call's snapshot plus its own appended patch (a write before
the corresponding read does nothing, keeping the function total). -/
def rmwStepFn (pA pB : Patch) (s : RmwState) : RmwStep → RmwState
  | .readA => { s with snapA := some s.stored }
  | .writeA =>
    match s.snapA with
    | some l => { s with stored := l ++ [pA] }
    | none => s
  | .readB => { s with snapB := some s.stored }
  | .writeB =>
    match s.snapB with
    | some l => { s with stored := l ++ [pB] }
    | none => s

/-- Run an interleaving of the two calls' steps from an initial stored list. -/
def rmwRun (pA pB : Patch) (init : List Patch) (sched : List RmwStep) : RmwState :=
  sched.foldl (rmwStepFn pA pB) { stored := init, snapA := none, snapB := none }

/-- Dynamic values of decoded JSON, as Go's `encoding/json` produces them
inside `params.Arguments` (`interface{}`): strings, numbers (restricted to
integers here; no claim depends on fractional values), booleans, null,
arrays, objects (`map[string]interface{}`). -/
inductive GoJson where
  | null
  | bool (b : Bool)
  | num (n : Int)
  | str (s : List Char)
  | arr (xs : List GoJson)
  | obj (fields : List (List Char × GoJson))

/-- First field of an object with the given key (our inputs carry no
duplicate keys). -/
def objGet (fs : List (List Char × GoJson)) (k : List Char) : Option GoJson :=
  (fs.find? (fun f => f.1 == k)).map (fun f => f.2)

/-- Model of `encoding/json` unmarshalling a JSON value into a `uint32`
field: a non-number, a negative value, or an overflow is a type error. -/
def jsonToUInt32 : GoJson → Option Nat
  | .num n => if 0 ≤ n ∧ n < 4294967296 then some n.toNat else none
  | _ => none

/-- Model of unmarshalling into `protocol.Position` with errors DISCARDED, as
`handle` does (`json.Unmarshal(rangeData, &rng)` with the error ignored,
part_000 line 139): a field that is absent or fails to decode is simply left
at its zero value while decoding continues. -/
def decodePositionLenient (j : GoJson) : Position :=
  match j with
  | .obj fs =>
    { line := ((objGet fs "line".data).bind jsonToUInt32).getD 0,
      character := ((objGet fs "character".data).bind jsonToUInt32).getD 0 }
  | _ => { line := 0, character := 0 }

/-- Model of `json.Marshal(rangeMap)` followed by `json.Unmarshal(rangeData,
&rng)` with the returned error discarded. -/
def decodeRangeLenient (fs : List (List Char × GoJson)) : Range :=
  { start := decodePositionLenient ((objGet fs "start".data).getD .null),
    endPos := decodePositionLenient ((objGet fs "end".data).getD .null) }

/-- The argument validation of the `comment.add` branch of part_000's
`handle` (lines 124-150): exactly three arguments; a string URI; a
map-shaped range (whose CONTENT is decoded leniently, the unmarshal error
being discarded); a string comment body.  `.ok` carries the triple passed on
to `addComment`, which writes the comment file — i.e. a state change;
`.error` is the synchronous error reply, sent before any state change. -/
def handleCommentAdd (args : List GoJson) :
    Except (List Char) (List Char × Range × List Char) :=
  match args with
  | [a0, a1, a2] =>
    match a0 with
    | .str uriStr =>
      match a1 with
      | .obj rangeMap =>
        let rng := decodeRangeLenient rangeMap
        match a2 with
        | .str contentBody => .ok (uriStr, rng, contentBody)
        | _ => .error ("invalid argument type for contentBody".data)
      | _ => .error ("invalid argument type for range".data)
    | _ => .error ("invalid argument type for URI".data)
  | _ => .error ("invalid arguments count".data)

/-- Shape of a well-formed `comment.add` argument list at the level `handle`
checks it: a string, an object, a string. -/
def wellFormedCommentAddArgs : List GoJson → Bool
  | [.str _, .obj _, .str _] => true
  | _ => false

deriving instance DecidableEq for Except

/-- A concrete 20-line file: lines `x0` … `x19` (the spec's concrete-scenario
file shape: 20 lines, no `%`, no newline inside a line). -/
def lines20 : List (List Char) := (List.range 20).map (fun i => 'x' :: natChars i)

/-- The 20-line file content (lines joined by newlines). -/
def content20 : List Char := intercalateNL lines20

/-- `content20` with three new lines inserted strictly before line 5 — i.e.
strictly before the context window `[5, 18)` of an anchor on lines 10-12
with five context lines on each side (the spec's concrete scenario). -/
def lines23 : List (List Char) :=
  lines20.take 5 ++ [['n', '1'], ['n', '2'], ['n', '3']] ++ lines20.drop 5

/-- The 23-line content after the insertion. -/
def content23 : List Char := intercalateNL lines23

/-- The context patch text captured for selection lines 10-12 of `content20`. -/
def txt20 : List Char := (generateCommentPatchText content20 10 12).getD []

/-- The dmp patch parsed back from `txt20`. -/
def p20 : DmpPatch :=
  match patchFromText txt20 with
  | .ok (p :: _) => p
  | _ => { diffs := [], start1 := 0, start2 := 0, length1 := 0, length2 := 0 }

/-- A concrete repository: branches `main` (tip `m`, checked out) and `dev`
(tip `d`); commit `c0` is contained in `dev` only, so it is NOT an ancestor
of the current checkout's HEAD. -/
def repoX : GitRepo :=
  { branches := [("main".data, "m".data), ("dev".data, "d".data)],
    head := "main".data,
    ancestor := fun c t => c == "c0".data && t == "d".data }

/-- A comment file captured at commit `c0` with one recoverable anchor. -/
def cfX : CommentFile :=
  { commit := "c0".data, patches := [{ message := "m".data, patch := txt20 }] }

/-- The diagnostic the server reports for the `txt20` anchor. -/
def diag1013 : Diagnostic :=
  { range := { start := { line := 10, character := 0 },
               endPos := { line := 13, character := 0 } },
    severity := 4, message := "m".data }

/-- A git oracle modelling VCS query failure (no repository, binary missing):
every invocation errors. -/
def gitFail : List Char → Except Unit (List Char) := fun _ => .error ()

/-! ### Basic facts about the codec instances -/

theorem trivialApply_ok : GoDiffApplyOk trivialApply := by
  intro ps t
  simp [trivialApply]

theorem allFalseApply_ok : GoDiffApplyOk allFalseApply := by
  intro ps t
  simp [allFalseApply]

/-! ### Claim C1 -/

/-- Claim C1 (false as stated): in the spec's concrete scenario — a 20-line
file, an anchor on lines 10-12 with five context lines each side, three lines
inserted strictly before the context window — the recovery pass does NOT
report the anchor at lines 13-15 shifted by the insertion: it reports the
capture-time range, start line 10 and end line 13, unchanged. -/
theorem C1_counterexample :
    (generateCommentPatchText content20 10 12).map
        (applyPatchAndGetPositions trivialApply content23) =
      some (.ok { start := { line := 10, character := 0 },
                  endPos := { line := 13, character := 0 } }) ∧
    ({ start := { line := 10, character := 0 },
       endPos := { line := 13, character := 0 } } : Range) ≠
      { start := { line := 13, character := 0 }, endPos := { line := 15, character := 0 } } ∧
    ({ start := { line := 10, character := 0 },
       endPos := { line := 13, character := 0 } } : Range) ≠
      { start := { line := 13, character := 0 }, endPos := { line := 16, character := 0 } } := by
  decide

/-- Claim C1 as amended: the range reported by `applyPatchAndGetPositions` is
computed from the STORED patch alone — `PatchApply` never mutates the parsed
patches and only the length of its flag list is consulted — so for any codec
within the `PatchApply` contract the reported range is identical for every
current text: inserting lines before (or after) the context window leaves
the reported range unchanged. -/
theorem C1_amended (f : List DmpPatch → List Char → List Char × List Bool)
    (hf : GoDiffApplyOk f) (t1 t2 patchText : List Char) :
    applyPatchAndGetPositions f t1 patchText =
      applyPatchAndGetPositions f t2 patchText := by
  unfold applyPatchAndGetPositions
  cases hpt : patchFromText patchText with
  | error e => rfl
  | ok ps =>
    cases ps with
    | nil =>
      have h1 := (hf [] t1).mpr rfl
      have h2 := (hf [] t2).mpr rfl
      simp [h1, h2]
    | cons p tl =>
      have h1 : (f (p :: tl) t1).2 ≠ [] := by
        intro h
        exact absurd ((hf (p :: tl) t1).mp h) (by simp)
      have h2 : (f (p :: tl) t2).2 ≠ [] := by
        intro h
        exact absurd ((hf (p :: tl) t2).mp h) (by simp)
      simp [List.length_eq_zero, h1, h2]

/-- Witness for `C1_amended` at a concrete codec, patch and pair of texts. -/
theorem C1_amended_witness :
    GoDiffApplyOk trivialApply ∧
    applyPatchAndGetPositions trivialApply content20 txt20 =
      applyPatchAndGetPositions trivialApply content23 txt20 :=
  ⟨trivialApply_ok, C1_amended trivialApply trivialApply_ok content20 content23 txt20⟩

/-! ### Claim C7 -/

/-- Claim C7 (false as stated for the repository's server draft): in
`src/server/main.go`, creating a new anchor at commit `B` on a file whose
store was captured at commit `A` resets the patch list, discarding the
earlier anchor: nothing but the new record survives. -/
theorem C7_counterexample :
    addCommentPatchServer
        (some { commit := "A".data,
                patches := [{ message := "old".data, patch := "p0".data }] })
        "B".data "new".data "p1".data =
      { commit := "B".data,
        patches := [{ message := "new".data, patch := "p1".data }] } ∧
    ({ message := "old".data, patch := "p0".data } : Patch) ∉
      (addCommentPatchServer
        (some { commit := "A".data,
                patches := [{ message := "old".data, patch := "p0".data }] })
        "B".data "new".data "p1".data).patches := by
  decide

/-- Claim C7 as amended: in the part_000 draft the create operation only
appends — every anchor present before is still present, unchanged and in the
same position, and the stored commit is untouched — even when the new anchor
is captured at a newer commit; in the server draft the patch list is instead
cleared whenever the current commit differs from the stored one. -/
theorem C7_amended (cf : CommentFile) (commitHash commentText patchText : List Char) :
    (addCommentPatch (some cf) commitHash commentText patchText).patches =
      cf.patches ++ [{ message := commentText, patch := patchText }] ∧
    (addCommentPatch (some cf) commitHash commentText patchText).commit = cf.commit :=
  ⟨rfl, rfl⟩

/-! ### Claim C8 -/

/-- Claim C8 (false as stated): the code takes no lock around the comment
file's read-modify-write, so the interleaving read-A, read-B, write-A,
write-B of two concurrent `comment.add` calls on the same path loses call
A's update: from one stored anchor the final count is 2, not 1 + 2, and A's
patch is absent. -/
theorem C8_counterexample :
    (rmwRun { message := "a".data, patch := "pa".data }
        { message := "b".data, patch := "pb".data }
        [{ message := "c".data, patch := "pc".data }]
        [.readA, .readB, .writeA, .writeB]).stored.length = 2 ∧
    (rmwRun { message := "a".data, patch := "pa".data }
        { message := "b".data, patch := "pb".data }
        [{ message := "c".data, patch := "pc".data }]
        [.readA, .readB, .writeA, .writeB]).stored.length ≠ 1 + 2 ∧
    ({ message := "a".data, patch := "pa".data } : Patch) ∉
      (rmwRun { message := "a".data, patch := "pa".data }
        { message := "b".data, patch := "pb".data }
        [{ message := "c".data, patch := "pc".data }]
        [.readA, .readB, .writeA, .writeB]).stored := by
  decide

/-- Claim C8 as amended: the read-modify-write is unguarded, so the outcome
depends on the interleaving — overlapping reads lose the first writer's
update (final list `init ++ [pB]`), while serial execution preserves both
(final list `init ++ [pA, pB]`, count = initial + 2). -/
theorem C8_amended (init : List Patch) (pA pB : Patch) :
    (rmwRun pA pB init [.readA, .readB, .writeA, .writeB]).stored = init ++ [pB] ∧
    (rmwRun pA pB init [.readA, .writeA, .readB, .writeB]).stored = init ++ [pA, pB] := by
  constructor <;> simp [rmwRun, rmwStepFn, List.foldl]

/-! ### Claim C9 -/

/-- Claim C9 (false as stated): an argument list with the right shapes but a
range object whose content does not unmarshal into a `Range` (here
`{"start": true}`) is NOT rejected — the unmarshal error is discarded and
the handler proceeds to create the comment at the zero range, a state
change on malformed input. -/
theorem C9_counterexample :
    handleCommentAdd
        [.str "file:///a.txt".data,
         .obj [("start".data, .bool true)],
         .str "msg".data] =
      .ok ("file:///a.txt".data,
           { start := { line := 0, character := 0 },
             endPos := { line := 0, character := 0 } },
           "msg".data) := by
  rfl

/-- Claim C9 as amended: the handler proceeds (and hence writes the comment
file) exactly when the argument list is three elements shaped string /
object / string; a wrong count or a wrong top-level type is rejected with a
synchronous error, before any state change — but the CONTENT of the range
object is never validated. -/
theorem C9_amended (args : List GoJson) :
    (handleCommentAdd args).isOk = wellFormedCommentAddArgs args := by
  cases args with
  | nil => rfl
  | cons a0 t0 =>
    cases t0 with
    | nil => cases a0 <;> rfl
    | cons a1 t1 =>
      cases t1 with
      | nil => cases a0 <;> cases a1 <;> rfl
      | cons a2 t2 =>
        cases t2 with
        | nil => cases a0 <;> cases a1 <;> cases a2 <;> rfl
        | cons a3 t3 => cases a0 <;> cases a1 <;> cases a2 <;> rfl

/-! ### Helper lemmas for the revision gate -/

theorem trimSpace_eq_nil_iff (l : List Char) :
    trimSpace l = [] ↔ ∀ c ∈ l, c.isWhitespace = true := by
  unfold trimSpace
  rw [List.reverse_eq_nil_iff, List.dropWhile_eq_nil_iff]
  constructor
  · intro h c hc
    have hsplit := List.takeWhile_append_dropWhile Char.isWhitespace l
    rw [← hsplit] at hc
    rcases List.mem_append.mp hc with h1 | h2
    · exact List.mem_takeWhile_imp h1
    · exact h _ (List.mem_reverse.mpr h2)
  · intro h c hc
    exact h _ ((List.dropWhile_sublist _).mem (List.mem_reverse.mp hc))

theorem mem_intercalateNL_head {c : Char} {x : List Char}
    (xs : List (List Char)) (hc : c ∈ x) : c ∈ intercalateNL (x :: xs) := by
  cases xs <;> simp [intercalateNL, hc]

/-! ### Claim C4 -/

/-- Claim C4 (false as stated): with a codec that reports every hunk as NOT
applied (`allFalseApply` — within the `PatchApply` contract), the recovery
pass still reports the anchor at its stored range instead of marking it
Stale with no range: the per-hunk applied flags are never read. -/
theorem C4_counterexample :
    publishDiagnostics gitFail allFalseApply content20
        { commit := [], patches := cfX.patches } = some [diag1013] ∧
    (some [diag1013] : Option (List Diagnostic)) ≠ some [] := by
  decide

/-- Claim C4 as amended: an anchor is skipped — silently, with no range and
no error, the remaining anchors of the file still processed — exactly when
its stored patch TEXT fails to parse (or parses to no patches); a hunk the
codec reports as unapplied is NOT treated as stale, since the per-hunk flags
are ignored.  Removing a parse-failing anchor from the file leaves the
published diagnostics unchanged. -/
theorem C4_amended (git : List Char → Except Unit (List Char))
    (f : List DmpPatch → List Char → List Char × List Bool)
    (content com : List Char) (ps1 ps2 : List Patch) (bad : Patch)
    (msgE : List Char) (hbad : patchFromText bad.patch = .error msgE) :
    publishDiagnostics git f content { commit := com, patches := ps1 ++ bad :: ps2 } =
      publishDiagnostics git f content { commit := com, patches := ps1 ++ ps2 } := by
  have hdiag : diagnosticOf f content bad = none := by
    simp [diagnosticOf, applyPatchAndGetPositions, hbad]
  have hfm : (ps1 ++ bad :: ps2).filterMap (diagnosticOf f content) =
      (ps1 ++ ps2).filterMap (diagnosticOf f content) := by
    simp [List.filterMap_append, List.filterMap_cons, hdiag]
  by_cases hcom : com = []
  · simp [publishDiagnostics, hcom, hfm]
  · simp only [publishDiagnostics]
    rw [if_pos (by simpa using hcom), if_pos (by simpa using hcom)]
    cases isCommitInCurrentBranch git com with
    | error e => rfl
    | ok b => cases b <;> simp [hfm]

/-- Witness for `C4_amended`: a concrete file holding one recoverable anchor
and one anchor whose patch text `zz` fails to parse. -/
theorem C4_amended_witness :
    patchFromText ("zz".data) = .error ("Invalid patch string: zz".data) ∧
    publishDiagnostics gitFail trivialApply content20
        { commit := [], patches := cfX.patches ++ [{ message := "b".data, patch := "zz".data }] } =
      publishDiagnostics gitFail trivialApply content20
        { commit := [], patches := cfX.patches ++ [] } :=
  ⟨by decide,
   C4_amended gitFail trivialApply content20 [] cfX.patches []
     { message := "b".data, patch := "zz".data }
     ("Invalid patch string: zz".data) (by decide)⟩

/-! ### Claim C5 -/

/-- Claim C5 (false as stated): the concrete repository `repoX` has commit
`c0` contained only in the non-checked-out branch `dev`, so `c0` is not an
ancestor of the current HEAD — the spec's gate (`specIsVisible`) excludes
the anchor — yet the code surfaces it, because `git branch --contains`
reports ANY branch containing the commit and the output is non-empty. -/
theorem C5_counterexample :
    publishDiagnostics (gitBranchContains repoX) trivialApply content20 cfX =
      some [diag1013] ∧
    specIsVisible repoX cfX.commit = false := by
  decide

/-- Claim C5 as amended: the gate is per-FILE, not per-anchor — the single
stored commit decides all anchors at once — and the code's criterion is
containment in SOME local branch, not ancestry of the current HEAD: nothing
is published iff the stored commit is non-empty and no local branch tip
contains it (branch names being visibly non-blank). -/
theorem C5_amended (repo : GitRepo)
    (f : List DmpPatch → List Char → List Char × List Bool)
    (content : List Char) (cf : CommentFile)
    (hnames : ∀ b ∈ repo.branches, ∃ c ∈ b.1, ¬ c.isWhitespace = true) :
    (publishDiagnostics (gitBranchContains repo) f content cf = none ↔
      cf.commit ≠ [] ∧ ∀ b ∈ repo.branches, repo.ancestor cf.commit b.2 = false) := by
  by_cases hcom : cf.commit = []
  · simp [publishDiagnostics, hcom]
  · have hempty_iff :
        (trimSpace (intercalateNL
            ((repo.branches.filter (fun b => repo.ancestor cf.commit b.2)).map
              (fun b => (if b.1 == repo.head then '*' else ' ') :: ' ' :: b.1)))) = [] ↔
        ∀ b ∈ repo.branches, repo.ancestor cf.commit b.2 = false := by
      cases hflt : repo.branches.filter (fun b => repo.ancestor cf.commit b.2) with
      | nil =>
        simp only [List.map_nil, intercalateNL]
        constructor
        · intro _ b hb
          have := List.filter_eq_nil_iff.mp hflt b hb
          simpa using this
        · intro _
          rfl
      | cons b0 rest =>
        constructor
        · intro htr
          exfalso
          have hb0f : b0 ∈ repo.branches.filter (fun b => repo.ancestor cf.commit b.2) := by
            rw [hflt]; exact List.mem_cons_self b0 rest
          have hb0 : b0 ∈ repo.branches := List.mem_of_mem_filter hb0f
          obtain ⟨c, hc, hcw⟩ := hnames b0 hb0
          have hcmem : c ∈ intercalateNL ((b0 :: rest).map
              (fun b => (if b.1 == repo.head then '*' else ' ') :: ' ' :: b.1)) := by
            rw [List.map_cons]
            exact mem_intercalateNL_head _ (by simp [hc])
          exact hcw ((trimSpace_eq_nil_iff _).mp htr c hcmem)
        · intro hall
          exfalso
          have hb0f : b0 ∈ repo.branches.filter (fun b => repo.ancestor cf.commit b.2) := by
            rw [hflt]; exact List.mem_cons_self b0 rest
          have h1 : repo.ancestor cf.commit b0.2 = true := by
            simpa using List.of_mem_filter hb0f
          rw [hall b0 (List.mem_of_mem_filter hb0f)] at h1
          exact Bool.false_ne_true h1
    simp only [publishDiagnostics, isCommitInCurrentBranch, gitBranchContains]
    rw [if_pos (by simpa using hcom)]
    cases hb : (trimSpace (intercalateNL
        ((repo.branches.filter (fun b => repo.ancestor cf.commit b.2)).map
          (fun b => (if b.1 == repo.head then '*' else ' ') :: ' ' :: b.1)))).isEmpty
    · apply iff_of_false
      · simp [hb]
      · rintro ⟨-, hall⟩
        rw [← hempty_iff] at hall
        rw [List.isEmpty_iff.mpr hall] at hb
        simp at hb
    · apply iff_of_true
      · simp [hb]
      · exact ⟨hcom, hempty_iff.mp (List.isEmpty_iff.mp hb)⟩

/-- Witness for `C5_amended` at the concrete repository and comment file:
commit `c0` IS contained in branch `dev`, so the right-hand side is false
and something is published. -/
theorem C5_amended_witness :
    (∀ b ∈ repoX.branches, ∃ c ∈ b.1, ¬ c.isWhitespace = true) ∧
    (publishDiagnostics (gitBranchContains repoX) trivialApply content20 cfX = none ↔
      cfX.commit ≠ [] ∧ ∀ b ∈ repoX.branches, repoX.ancestor cfX.commit b.2 = false) :=
  ⟨by decide, C5_amended repoX trivialApply content20 cfX (by decide)⟩

/-! ### Claim C6 -/

/-- Claim C6 (false in its failure half): when the git query fails, the code
publishes NOTHING for the file — the anchors are suppressed, not degraded to
always-visible — while the same store with an empty commit (the
always-visible policy the spec demands as fallback) yields the anchor. -/
theorem C6_counterexample :
    publishDiagnostics gitFail trivialApply content20 cfX = none ∧
    publishDiagnostics gitFail trivialApply content20
        { commit := [], patches := cfX.patches } = some [diag1013] := by
  decide

/-- Claim C6 as amended: an empty stored commit short-circuits the gate — the
anchors are always visible and the git oracle is never consulted (any two
oracles give the same result) — but a failing VCS query on a non-empty
commit aborts the pass entirely, publishing nothing, instead of degrading to
the always-visible policy. -/
theorem C6_amended (git gitF : List Char → Except Unit (List Char))
    (f : List DmpPatch → List Char → List Char × List Bool)
    (content : List Char) (cfE cfN : CommentFile)
    (hE : cfE.commit = []) (hN : cfN.commit ≠ [])
    (hFail : gitF cfN.commit = .error ()) :
    publishDiagnostics git f content cfE = publishDiagnostics gitF f content cfE ∧
    (publishDiagnostics git f content cfE).isSome = true ∧
    publishDiagnostics gitF f content cfN = none := by
  refine ⟨?_, ?_, ?_⟩
  · simp [publishDiagnostics, hE]
  · simp [publishDiagnostics, hE]
  · simp only [publishDiagnostics, isCommitInCurrentBranch]
    rw [if_pos (by simpa using hN), hFail]

/-- Witness for `C6_amended` at concrete stores and oracles. -/
theorem C6_amended_witness :
    (({ commit := [], patches := cfX.patches } : CommentFile).commit = [] ∧
      cfX.commit ≠ [] ∧ gitFail cfX.commit = .error ()) ∧
    (publishDiagnostics (gitBranchContains repoX) trivialApply content20
          { commit := [], patches := cfX.patches } =
        publishDiagnostics gitFail trivialApply content20
          { commit := [], patches := cfX.patches } ∧
      (publishDiagnostics (gitBranchContains repoX) trivialApply content20
          { commit := [], patches := cfX.patches }).isSome = true ∧
      publishDiagnostics gitFail trivialApply content20 cfX = none) :=
  ⟨⟨rfl, by decide, rfl⟩,
   C6_amended (gitBranchContains repoX) gitFail trivialApply content20
     { commit := [], patches := cfX.patches } cfX rfl (by decide) rfl⟩

/-! ### Decimal printing round-trips with the header parser -/

theorem digitChar_isDigit (d : Nat) : (digitChar d).isDigit = true := by
  rcases d with _ | _ | _ | _ | _ | _ | _ | _ | _ | d <;> rfl

theorem digitChar_toNat (d : Nat) (hd : d < 10) : (digitChar d).toNat - 48 = d := by
  interval_cases d <;> decide

theorem foldl_natCharsAux (fuel : Nat) :
    ∀ n acc, 1 ≤ n → n ≤ fuel →
      List.foldl (fun a c => a * 10 + (c.toNat - 48)) acc (natCharsAux fuel n) =
        acc * 10 ^ (natCharsAux fuel n).length + n := by
  induction fuel with
  | zero =>
    intro n acc h1 h2
    omega
  | succ fuel ih =>
    intro n acc h1 h2
    cases n with
    | zero => omega
    | succ k =>
      have heq : natCharsAux (fuel + 1) (k + 1) =
          natCharsAux fuel ((k + 1) / 10) ++ [digitChar ((k + 1) % 10)] := rfl
      rw [heq, List.foldl_append, List.length_append]
      simp only [List.foldl_cons, List.foldl_nil, List.length_cons, List.length_nil]
      rw [digitChar_toNat _ (Nat.mod_lt _ (by omega))]
      by_cases h10 : (k + 1) / 10 = 0
      · have hnil : natCharsAux fuel ((k + 1) / 10) = [] := by
          rw [h10]; cases fuel <;> rfl
        rw [hnil]
        simp only [List.foldl_nil, List.length_nil, Nat.zero_add, pow_one]
        omega
      · rw [ih ((k + 1) / 10) acc (by omega) (by omega)]
        rw [Nat.add_mul, Nat.add_assoc, Nat.div_add_mod', Nat.zero_add, pow_succ, mul_assoc]

theorem digitsToNat_natChars (n : Nat) : digitsToNat (natChars n) = n := by
  by_cases h : n = 0
  · subst h; decide
  · unfold natChars digitsToNat
    rw [if_neg h, foldl_natCharsAux n n 0 (by omega) le_rfl]
    simp

theorem mem_natCharsAux_isDigit (fuel : Nat) :
    ∀ n c, c ∈ natCharsAux fuel n → c.isDigit = true := by
  induction fuel with
  | zero =>
    intro n c hc
    simp [natCharsAux] at hc
  | succ fuel ih =>
    intro n c hc
    cases n with
    | zero => simp [natCharsAux] at hc
    | succ k =>
      have heq : natCharsAux (fuel + 1) (k + 1) =
          natCharsAux fuel ((k + 1) / 10) ++ [digitChar ((k + 1) % 10)] := rfl
      rw [heq, List.mem_append] at hc
      rcases hc with hc | hc
      · exact ih _ _ hc
      · simp only [List.mem_singleton] at hc
        subst hc
        exact digitChar_isDigit _

theorem mem_natChars_isDigit (n : Nat) (c : Char) (hc : c ∈ natChars n) :
    c.isDigit = true := by
  unfold natChars at hc
  by_cases h : n = 0
  · rw [if_pos h] at hc
    simp only [List.mem_singleton] at hc
    subst hc; decide
  · rw [if_neg h] at hc
    exact mem_natCharsAux_isDigit n n c hc

theorem natChars_ne_nil (n : Nat) : natChars n ≠ [] := by
  unfold natChars
  by_cases h : n = 0
  · simp [h]
  · rw [if_neg h]
    cases n with
    | zero => omega
    | succ k =>
      intro hcontra
      have heq : natCharsAux (k + 1) (k + 1) =
          natCharsAux k ((k + 1) / 10) ++ [digitChar ((k + 1) % 10)] := rfl
      rw [heq] at hcontra
      simp at hcontra

theorem natChars_ne_zeroChar (n : Nat) (h : n ≠ 0) : natChars n ≠ ['0'] := by
  intro hcontra
  have h1 := digitsToNat_natChars n
  rw [hcontra] at h1
  have : digitsToNat ['0'] = 0 := by decide
  omega

theorem mem_natChars_ne_newline (n : Nat) (c : Char) (hc : c ∈ natChars n) :
    c ≠ '\n' := by
  intro hcontra
  subst hcontra
  have := mem_natChars_isDigit n _ hc
  simp [Char.isDigit] at this

theorem intChars_nonneg (i : Int) (h : 0 ≤ i) : intChars i = natChars i.toNat := by
  unfold intChars
  rw [if_neg (by omega)]

theorem takeDigits_append (d rest : List Char)
    (hd : ∀ c ∈ d, c.isDigit = true)
    (hr : ∀ c, rest.head? = some c → c.isDigit = false) :
    takeDigits (d ++ rest) = (d, rest) := by
  induction d with
  | nil =>
    cases rest with
    | nil => rfl
    | cons c r =>
      have := hr c rfl
      simp [takeDigits, this]
  | cons c dtl ih =>
    have hc : c.isDigit = true := hd c (List.mem_cons_self c dtl)
    have ih' := ih (fun x hx => hd x (List.mem_cons_of_mem c hx))
    simp only [List.cons_append, takeDigits, hc, if_true, List.append_eq, ih']

theorem expectLit_append (p rest : List Char) :
    expectLit p (p ++ rest) = some rest := by
  induction p with
  | nil => rfl
  | cons c ptl ih => simp [expectLit, ih]

theorem parseNumPair_gen (n m : Nat) (hm : m ≠ 0) (rest : List Char)
    (hr : ∀ c, rest.head? = some c → c.isDigit = false) :
    parseNumPair (natChars (n + 1) ++ (',' :: (natChars m ++ rest))) =
      some ((n : Int), (m : Int), rest) := by
  have h1 : takeDigits (natChars (n + 1) ++ (',' :: (natChars m ++ rest))) =
      (natChars (n + 1), ',' :: (natChars m ++ rest)) := by
    apply takeDigits_append
    · exact fun c hc => mem_natChars_isDigit _ c hc
    · intro c hc
      simp only [List.head?_cons, Option.some.injEq] at hc
      subst hc
      decide
  have h2 : takeDigits (natChars m ++ rest) = (natChars m, rest) :=
    takeDigits_append _ _ (fun c hc => mem_natChars_isDigit _ c hc) hr
  unfold parseNumPair
  rw [h1]
  simp only [if_neg (natChars_ne_nil (n + 1))]
  rw [h2]
  rw [if_neg (natChars_ne_nil m), if_neg (natChars_ne_zeroChar m hm)]
  rw [digitsToNat_natChars, digitsToNat_natChars]
  have hcast : ((n + 1 : Nat) : Int) - 1 = (n : Int) := by push_cast; ring
  rw [hcast]

theorem matchHeader_gen (n m : Nat) (hm : m ≠ 0) :
    matchHeader (['@', '@', ' ', '-'] ++ (natChars (n + 1) ++ (',' :: (natChars m ++
        ([' ', '+'] ++ (natChars (n + 1) ++ (',' :: (natChars m ++ [' ', '@', '@'])))))))) =
      some ((n : Int), (m : Int), (n : Int), (m : Int)) := by
  have hhead1 : ∀ c : Char,
      (([' ', '+'] ++ (natChars (n + 1) ++ (',' :: (natChars m ++ [' ', '@', '@'])))).head? = some c) →
        c.isDigit = false := by
    intro c hc
    simp only [List.cons_append, List.head?_cons, Option.some.injEq] at hc
    subst hc
    decide
  have hhead2 : ∀ c : Char, (([' ', '@', '@'] : List Char).head? = some c) → c.isDigit = false := by
    intro c hc
    simp only [List.head?_cons, Option.some.injEq] at hc
    subst hc
    decide
  have hlast : expectLit [' ', '@', '@'] [' ', '@', '@'] = some [] := by
    have := expectLit_append [' ', '@', '@'] []
    simpa using this
  unfold matchHeader
  rw [expectLit_append]
  simp only [Option.bind_eq_bind, Option.some_bind]
  rw [parseNumPair_gen n m hm _ hhead1]
  simp only [Option.some_bind]
  rw [expectLit_append]
  simp only [Option.some_bind]
  rw [parseNumPair_gen n m hm _ hhead2]
  simp only [Option.some_bind]
  rw [hlast]
  simp only [Option.some_bind, if_pos rfl]
  rfl

/-! ### Unescape and split lemmas -/

theorem goUnescape_cons_ne (c : Char) (xs : List Char) (hc : c ≠ '%') :
    goUnescape (c :: xs) =
      if c = '+' then (goUnescape xs).map (fun t => ' ' :: t)
      else (goUnescape xs).map (fun t => c :: t) := by
  rcases xs with _ | ⟨a, _ | ⟨b, rr⟩⟩ <;> simp [goUnescape, hc]

theorem goUnescape_escape (a b : Char) (rr : List Char) :
    goUnescape ('%' :: a :: b :: rr) = (do
      let ha ← hexVal a
      let hb ← hexVal b
      let tail ← goUnescape rr
      pure (Char.ofNat (16 * ha + hb) :: tail)) := by
  simp [goUnescape]

theorem goUnescape_goReplacePlus (l : List Char) (hp : '%' ∉ l) :
    goUnescape (goReplacePlus l) = some l := by
  induction l with
  | nil => rfl
  | cons c r ih =>
    have hcp : c ≠ '%' := fun h => hp (h ▸ List.mem_cons_self c r)
    have hr : '%' ∉ r := fun h => hp (List.mem_cons_of_mem c h)
    by_cases hplus : c = '+'
    · subst hplus
      have hrp : goReplacePlus ('+' :: r) = '%' :: '2' :: 'b' :: goReplacePlus r := by
        simp [goReplacePlus]
      have h2 : hexVal '2' = some 2 := by decide
      have hb11 : hexVal 'b' = some 11 := by decide
      have h43 : Char.ofNat (16 * 2 + 11) = '+' := by decide
      rw [hrp, goUnescape_escape, h2, hb11, ih hr]
      simp only [Option.bind_eq_bind, Option.some_bind, h43]
      rfl
    · have hrp : goReplacePlus (c :: r) = c :: goReplacePlus r := by
        simp [goReplacePlus, hplus]
      rw [hrp, goUnescape_cons_ne c _ hcp, if_neg hplus, ih hr]
      rfl

theorem goSplit_ne_nil (l : List Char) : goSplit l ≠ [] := by
  induction l with
  | nil => simp [goSplit]
  | cons c r ih =>
    rw [goSplit]
    by_cases h : c = '\n'
    · simp [h]
    · rw [if_neg h]
      cases hr : goSplit r <;> simp

theorem goSplit_append (a b : List Char) (ha : '\n' ∉ a) :
    goSplit (a ++ '\n' :: b) = a :: goSplit b := by
  induction a with
  | nil => simp [goSplit]
  | cons c r ih =>
    have hc : c ≠ '\n' := fun h => ha (h ▸ List.mem_cons_self c r)
    have hr : '\n' ∉ r := fun h => ha (List.mem_cons_of_mem c h)
    rw [List.cons_append, goSplit, if_neg hc, ih hr]

theorem goSplit_no_newline (l : List Char) : ∀ p ∈ goSplit l, '\n' ∉ p := by
  induction l with
  | nil =>
    intro p hp
    simp only [goSplit, List.mem_singleton] at hp
    subst hp
    simp
  | cons c r ih =>
    intro p hp
    rw [goSplit] at hp
    by_cases h : c = '\n'
    · rw [if_pos h] at hp
      rcases List.mem_cons.mp hp with h1 | h1
      · subst h1; simp
      · exact ih p h1
    · rw [if_neg h] at hp
      cases hgs : goSplit r with
      | nil => exact absurd hgs (goSplit_ne_nil r)
      | cons l0 ls =>
        rw [hgs] at hp
        rcases List.mem_cons.mp hp with h1 | h1
        · subst h1
          intro hmem
          rcases List.mem_cons.mp hmem with h2 | h2
          · exact h h2.symm
          · exact ih l0 (hgs ▸ List.mem_cons_self l0 ls) h2
        · exact ih p (hgs ▸ List.mem_cons_of_mem l0 h1)

/-! ### The generated context patch parses back to its header hunk -/

theorem patchLoopChunks_spec (lines : List (List Char)) (sign : Char) :
    ∀ n i, i + n ≤ lines.length →
      ∃ chs, patchLoopChunks lines sign i n = some chs ∧
        ∀ ch ∈ chs, ∃ l, l ∈ lines ∧ ch = sign :: l ++ ['\n'] := by
  intro n
  induction n with
  | zero =>
    intro i h
    exact ⟨[], rfl, by simp⟩
  | succ k ih =>
    intro i h
    have hi : i < lines.length := by omega
    obtain ⟨chs, hchs, hall⟩ := ih (i + 1) (by omega)
    refine ⟨(sign :: lines[i] ++ ['\n']) :: chs, ?_, ?_⟩
    · rw [patchLoopChunks, List.getElem?_eq_getElem hi]
      simp only [Option.bind_eq_bind, Option.some_bind, hchs]
      rfl
    · intro ch hch
      rcases List.mem_cons.mp hch with h1 | h1
      · exact ⟨lines[i], List.getElem_mem hi, h1⟩
      · exact hall ch h1

theorem goSplit_flatten_chunks (lines : List (List Char))
    (hnl : ∀ l ∈ lines, '\n' ∉ l) :
    ∀ (chs : List (List Char)),
      (∀ ch ∈ chs, ∃ sg l, l ∈ lines ∧ (sg = ' ' ∨ sg = '-' ∨ sg = '+') ∧ ch = sg :: l ++ ['\n']) →
      ∃ bls, goSplit chs.flatten = bls ++ [[]] ∧
        ∀ b ∈ bls, ∃ sg l, l ∈ lines ∧ (sg = ' ' ∨ sg = '-' ∨ sg = '+') ∧ b = sg :: l := by
  intro chs
  induction chs with
  | nil =>
    intro _
    exact ⟨[], rfl, by simp⟩
  | cons ch rest ih =>
    intro hall
    obtain ⟨sg, l, hl, hsg, hch⟩ := hall ch (List.mem_cons_self _ _)
    obtain ⟨bls, hbls, hgood⟩ := ih (fun x hx => hall x (List.mem_cons_of_mem _ hx))
    have hsgnl : sg ≠ '\n' := by rcases hsg with h | h | h <;> (subst h; decide)
    have hnomem : '\n' ∉ sg :: l := by
      intro hmem
      rcases List.mem_cons.mp hmem with h | h
      · exact hsgnl h.symm
      · exact hnl l hl h
    have hfl : (ch :: rest).flatten = (sg :: l) ++ '\n' :: rest.flatten := by
      rw [List.flatten_cons, hch]
      simp
    rw [hfl, goSplit_append _ _ hnomem, hbls]
    refine ⟨(sg :: l) :: bls, rfl, ?_⟩
    intro b hb
    rcases List.mem_cons.mp hb with h1 | h1
    · exact ⟨sg, l, hl, hsg, h1⟩
    · exact hgood b h1

theorem parsePatchLines_good (lines : List (List Char)) (hp : ∀ l ∈ lines, '%' ∉ l) :
    ∀ (bls : List (List Char)),
      (∀ b ∈ bls, ∃ sg l, l ∈ lines ∧ (sg = ' ' ∨ sg = '-' ∨ sg = '+') ∧ b = sg :: l) →
      ∀ p acc, ∃ ds, parsePatchLines (bls ++ [[]]) p acc =
        .ok (acc ++ [{ p with diffs := p.diffs ++ ds }]) := by
  intro bls
  induction bls with
  | nil =>
    intro _ p acc
    refine ⟨[], ?_⟩
    simp [parsePatchLines]
  | cons b rest ih =>
    intro hall p acc
    obtain ⟨sg, l, hl, hsg, hb⟩ := hall b (List.mem_cons_self _ _)
    have hstep := ih (fun x hx => hall x (List.mem_cons_of_mem _ hx))
    have hul : goUnescape (goReplacePlus l) = some l := goUnescape_goReplacePlus l (hp l hl)
    subst hb
    rcases hsg with h | h | h <;> subst h
    · obtain ⟨ds, hds⟩ := hstep { p with diffs := p.diffs ++ [(DiffOp.equal, l)] } acc
      refine ⟨(DiffOp.equal, l) :: ds, ?_⟩
      show parsePatchLines ((' ' :: l) :: (rest ++ [[]])) p acc = _
      simp only [parsePatchLines, hul]
      rw [hds]
      simp [List.append_assoc]
    · obtain ⟨ds, hds⟩ := hstep { p with diffs := p.diffs ++ [(DiffOp.delete, l)] } acc
      refine ⟨(DiffOp.delete, l) :: ds, ?_⟩
      show parsePatchLines (('-' :: l) :: (rest ++ [[]])) p acc = _
      simp only [parsePatchLines, hul]
      rw [hds]
      simp [List.append_assoc]
    · obtain ⟨ds, hds⟩ := hstep { p with diffs := p.diffs ++ [(DiffOp.insert, l)] } acc
      refine ⟨(DiffOp.insert, l) :: ds, ?_⟩
      show parsePatchLines (('+' :: l) :: (rest ++ [[]])) p acc = _
      simp only [parsePatchLines, hul]
      rw [hds]
      simp [List.append_assoc]

theorem patchFromText_generated (content : List Char) (s e : Nat)
    (h5 : contextBefore ≤ s) (hse : s ≤ e)
    (he : e + contextAfter + 1 ≤ (goSplit content).length)
    (hp : ∀ l ∈ goSplit content, '%' ∉ l) :
    ∃ txt ds, generateCommentPatchText content s e = some txt ∧
      patchFromText txt = .ok [{ diffs := ds,
                                 start1 := ((s - contextBefore : Nat) : Int),
                                 start2 := ((s - contextBefore : Nat) : Int),
                                 length1 := ((e + contextAfter + 1 - (s - contextBefore) : Nat) : Int),
                                 length2 := ((e + contextAfter + 1 - (s - contextBefore) : Nat) : Int) }] := by
  have hslt : s < (goSplit content).length := by omega
  have helt : e < (goSplit content).length := by omega
  have hsl : (if s ≥ (goSplit content).length then (goSplit content).length - 1 else s) = s :=
    if_neg (by omega)
  have hel : (if e ≥ (goSplit content).length then (goSplit content).length - 1 else e) = e :=
    if_neg (by omega)
  have hce : min (e + contextAfter + 1) (goSplit content).length = e + contextAfter + 1 :=
    min_eq_left he
  have hwl0 : e + contextAfter + 1 - (s - contextBefore) ≠ 0 := by omega
  obtain ⟨c1, hc1, hg1⟩ := patchLoopChunks_spec (goSplit content) ' '
    (s - (s - contextBefore)) (s - contextBefore) (by omega)
  obtain ⟨c2, hc2, hg2⟩ := patchLoopChunks_spec (goSplit content) '-'
    (e + 1 - s) s (by omega)
  obtain ⟨c3, hc3, hg3⟩ := patchLoopChunks_spec (goSplit content) '+'
    (e + 1 - s) s (by omega)
  obtain ⟨c4, hc4, hg4⟩ := patchLoopChunks_spec (goSplit content) ' '
    (min (e + contextAfter + 1) (goSplit content).length - (e + 1)) (e + 1) (by omega)
  have hint : intChars ((↑(min (e + contextAfter + 1) (goSplit content).length) : Int) -
      (↑(s - contextBefore) : Int)) = natChars (e + contextAfter + 1 - (s - contextBefore)) := by
    rw [hce, intChars_nonneg _ (by push_cast; omega)]
    congr 1
    omega
  have hgen : generateCommentPatchText content s e =
      some ((['@', '@', ' ', '-'] ++ natChars (s - contextBefore + 1) ++ [','] ++
          natChars (e + contextAfter + 1 - (s - contextBefore)) ++
          [' ', '+'] ++ natChars (s - contextBefore + 1) ++ [','] ++
          natChars (e + contextAfter + 1 - (s - contextBefore)) ++ [' ', '@', '@'] ++ ['\n']) ++
        (c1 ++ c2 ++ c3 ++ c4).flatten) := by
    simp only [generateCommentPatchText]
    rw [hsl, hel, hint, hc1, hc2, hc3, hc4]
    simp only [Option.bind_eq_bind, Option.some_bind]
    rfl
  have hnd : ∀ n, '\n' ∉ natChars n := fun n h => mem_natChars_ne_newline n _ h rfl
  have hnlHL : '\n' ∉ (['@', '@', ' ', '-'] ++ natChars (s - contextBefore + 1) ++ [','] ++
      natChars (e + contextAfter + 1 - (s - contextBefore)) ++
      [' ', '+'] ++ natChars (s - contextBefore + 1) ++ [','] ++
      natChars (e + contextAfter + 1 - (s - contextBefore)) ++ [' ', '@', '@']) := by
    intro h
    simp only [List.append_assoc, List.mem_append] at h
    rcases h with h | h | h | h | h | h | h | h | h <;>
      first
      | exact hnd _ h
      | simp at h
  have hallc : ∀ ch ∈ c1 ++ c2 ++ c3 ++ c4, ∃ sg l, l ∈ goSplit content ∧
      (sg = ' ' ∨ sg = '-' ∨ sg = '+') ∧ ch = sg :: l ++ ['\n'] := by
    intro ch hch
    simp only [List.mem_append] at hch
    rcases hch with ((h | h) | h) | h
    · obtain ⟨l, hl, hch⟩ := hg1 ch h
      exact ⟨' ', l, hl, Or.inl rfl, hch⟩
    · obtain ⟨l, hl, hch⟩ := hg2 ch h
      exact ⟨'-', l, hl, Or.inr (Or.inl rfl), hch⟩
    · obtain ⟨l, hl, hch⟩ := hg3 ch h
      exact ⟨'+', l, hl, Or.inr (Or.inr rfl), hch⟩
    · obtain ⟨l, hl, hch⟩ := hg4 ch h
      exact ⟨' ', l, hl, Or.inl rfl, hch⟩
  obtain ⟨bls, hbls, hgood⟩ :=
    goSplit_flatten_chunks (goSplit content) (goSplit_no_newline content) _ hallc
  obtain ⟨ds, hds⟩ := parsePatchLines_good (goSplit content) hp bls hgood
    { diffs := [], start1 := ((s - contextBefore : Nat) : Int),
      start2 := ((s - contextBefore : Nat) : Int),
      length1 := ((e + contextAfter + 1 - (s - contextBefore) : Nat) : Int),
      length2 := ((e + contextAfter + 1 - (s - contextBefore) : Nat) : Int) } []
  refine ⟨_, ds, hgen, ?_⟩
  have htxtne : ((['@', '@', ' ', '-'] ++ natChars (s - contextBefore + 1) ++ [','] ++
      natChars (e + contextAfter + 1 - (s - contextBefore)) ++
      [' ', '+'] ++ natChars (s - contextBefore + 1) ++ [','] ++
      natChars (e + contextAfter + 1 - (s - contextBefore)) ++ [' ', '@', '@'] ++ ['\n']) ++
      (c1 ++ c2 ++ c3 ++ c4).flatten) ≠ [] := by
    simp
  have hspl : goSplit ((['@', '@', ' ', '-'] ++ natChars (s - contextBefore + 1) ++ [','] ++
      natChars (e + contextAfter + 1 - (s - contextBefore)) ++
      [' ', '+'] ++ natChars (s - contextBefore + 1) ++ [','] ++
      natChars (e + contextAfter + 1 - (s - contextBefore)) ++ [' ', '@', '@'] ++ ['\n']) ++
      (c1 ++ c2 ++ c3 ++ c4).flatten) =
      (['@', '@', ' ', '-'] ++ natChars (s - contextBefore + 1) ++ [','] ++
        natChars (e + contextAfter + 1 - (s - contextBefore)) ++
        [' ', '+'] ++ natChars (s - contextBefore + 1) ++ [','] ++
        natChars (e + contextAfter + 1 - (s - contextBefore)) ++ [' ', '@', '@']) ::
        (bls ++ [[]]) := by
    have hassoc : ((['@', '@', ' ', '-'] ++ natChars (s - contextBefore + 1) ++ [','] ++
        natChars (e + contextAfter + 1 - (s - contextBefore)) ++
        [' ', '+'] ++ natChars (s - contextBefore + 1) ++ [','] ++
        natChars (e + contextAfter + 1 - (s - contextBefore)) ++ [' ', '@', '@'] ++ ['\n']) ++
        (c1 ++ c2 ++ c3 ++ c4).flatten) =
        ((['@', '@', ' ', '-'] ++ natChars (s - contextBefore + 1) ++ [','] ++
          natChars (e + contextAfter + 1 - (s - contextBefore)) ++
          [' ', '+'] ++ natChars (s - contextBefore + 1) ++ [','] ++
          natChars (e + contextAfter + 1 - (s - contextBefore)) ++ [' ', '@', '@']) ++
          ('\n' :: (c1 ++ c2 ++ c3 ++ c4).flatten)) := by
      simp [List.append_assoc]
    rw [hassoc, goSplit_append _ _ hnlHL, hbls]
  have hmh : matchHeader (['@', '@', ' ', '-'] ++ natChars (s - contextBefore + 1) ++ [','] ++
      natChars (e + contextAfter + 1 - (s - contextBefore)) ++
      [' ', '+'] ++ natChars (s - contextBefore + 1) ++ [','] ++
      natChars (e + contextAfter + 1 - (s - contextBefore)) ++ [' ', '@', '@']) =
      some (((s - contextBefore : Nat) : Int),
        ((e + contextAfter + 1 - (s - contextBefore) : Nat) : Int),
        ((s - contextBefore : Nat) : Int),
        ((e + contextAfter + 1 - (s - contextBefore) : Nat) : Int)) := by
    have h0 := matchHeader_gen (s - contextBefore)
      (e + contextAfter + 1 - (s - contextBefore)) hwl0
    have hconv : (['@', '@', ' ', '-'] ++ natChars (s - contextBefore + 1) ++ [','] ++
        natChars (e + contextAfter + 1 - (s - contextBefore)) ++
        [' ', '+'] ++ natChars (s - contextBefore + 1) ++ [','] ++
        natChars (e + contextAfter + 1 - (s - contextBefore)) ++ [' ', '@', '@']) =
        (['@', '@', ' ', '-'] ++ (natChars (s - contextBefore + 1) ++ (',' ::
          (natChars (e + contextAfter + 1 - (s - contextBefore)) ++
          ([' ', '+'] ++ (natChars (s - contextBefore + 1) ++ (',' ::
          (natChars (e + contextAfter + 1 - (s - contextBefore)) ++ [' ', '@', '@'])))))))) := by
      simp [List.append_assoc]
    rw [hconv]
    exact h0
  unfold patchFromText
  rw [if_neg htxtne, hspl]
  simp only [hmh]
  rw [hds]
  simp

theorem toUInt32_ofNat (n : Nat) (h : n < 4294967296) : toUInt32 (n : Int) = n := by
  unfold toUInt32
  omega

/-! ### Claim C2 -/

/-- Claim C2 (false as stated): for the clamped selection lines 18-19 of a
20-line file the reported end is NOT `start + originalSelectionLength`: the
code reports start 18 but end 15 (= start1 + length1 - contextAfter with the
window clamped at the end of file), while the claim demands 18 + 2 = 20. -/
theorem C2_counterexample :
    (generateCommentPatchText content20 18 19).map
        (applyPatchAndGetPositions trivialApply content20) =
      some (.ok { start := { line := 18, character := 0 },
                  endPos := { line := 15, character := 0 } }) ∧
    (15 : Nat) ≠ 18 + (19 - 18 + 1) := by
  decide

/-- Claim C2 as amended: the reported range comes from the STORED hunk
offsets, never a post-apply offset — `start1` (equal to `start2` as stored in
the self-diff header) plus `contextBefore` gives the start, and only when
the context window was not clamped does `start + originalSelectionLength`
describe the end; the current text is irrelevant to the value. -/
theorem C2_amended (f : List DmpPatch → List Char → List Char × List Bool)
    (hf : GoDiffApplyOk f) (content current txt : List Char)
    (p : DmpPatch) (s e : Nat)
    (h5 : contextBefore ≤ s) (hse : s ≤ e)
    (he : e + contextAfter + 1 ≤ (goSplit content).length)
    (hp : ∀ l ∈ goSplit content, '%' ∉ l)
    (hgen : generateCommentPatchText content s e = some txt)
    (hparse : patchFromText txt = .ok [p]) :
    p.start1 = p.start2 ∧
    applyPatchAndGetPositions f current txt =
      .ok { start := { line := toUInt32 (p.start2 + (contextBefore : Int)), character := 0 },
            endPos := { line := toUInt32 (p.start2 + (contextBefore : Int) +
                          ((e - s + 1 : Nat) : Int)),
                        character := 0 } } := by
  obtain ⟨txt', ds, hgen', hparse'⟩ := patchFromText_generated content s e h5 hse he hp
  rw [hgen] at hgen'
  have htxt : txt = txt' := Option.some.inj hgen'
  subst htxt
  rw [hparse] at hparse'
  have hpeq : p = { diffs := ds,
                    start1 := ((s - contextBefore : Nat) : Int),
                    start2 := ((s - contextBefore : Nat) : Int),
                    length1 := ((e + contextAfter + 1 - (s - contextBefore) : Nat) : Int),
                    length2 := ((e + contextAfter + 1 - (s - contextBefore) : Nat) : Int) } := by
    simpa using hparse' 
  subst hpeq
  refine ⟨rfl, ?_⟩
  have hres : (f [{ diffs := ds,
                    start1 := ((s - contextBefore : Nat) : Int),
                    start2 := ((s - contextBefore : Nat) : Int),
                    length1 := ((e + contextAfter + 1 - (s - contextBefore) : Nat) : Int),
                    length2 := ((e + contextAfter + 1 - (s - contextBefore) : Nat) : Int) }]
      current).2.length ≠ 0 := by
    intro h0
    have := (hf _ current).mp (List.length_eq_zero.mp h0)
    simp at this
  simp only [applyPatchAndGetPositions, hparse, hres]
  have harg : (((s - contextBefore : Nat) : Int) +
      ((e + contextAfter + 1 - (s - contextBefore) : Nat) : Int) - (contextAfter : Int)) =
      (((s - contextBefore : Nat) : Int) + (contextBefore : Int) + ((e - s + 1 : Nat) : Int)) := by
    omega
  rw [harg]
  simp

/-- Witness for `C2_amended` at the concrete 20-line file, its captured
patch `txt20`, the parsed hunk `p20` and a drifted current text. -/
theorem C2_amended_witness :
    GoDiffApplyOk trivialApply ∧
    generateCommentPatchText content20 10 12 = some txt20 ∧
    patchFromText txt20 = .ok [p20] ∧
    (p20.start1 = p20.start2 ∧
      applyPatchAndGetPositions trivialApply content23 txt20 =
        .ok { start := { line := toUInt32 (p20.start2 + (contextBefore : Int)), character := 0 },
              endPos := { line := toUInt32 (p20.start2 + (contextBefore : Int) +
                            ((12 - 10 + 1 : Nat) : Int)),
                          character := 0 } }) :=
  ⟨trivialApply_ok, by decide, by decide,
   C2_amended trivialApply trivialApply_ok content20 content23 txt20 p20 10 12
     (by decide) (by decide) (by decide) (by decide) (by decide) (by decide)⟩

/-! ### Claim C3 -/

/-- Claim C3 (false as stated): creating an anchor at selection lines 0-0 (a
clamped context window) and recovering on the unmodified content reports the
range start line 5, end line 1 — not the original selection, under either an
inclusive or an exclusive reading of the range end. -/
theorem C3_counterexample :
    createThenRecover trivialApply content20 content20 0 0 =
      some (.ok { start := { line := 5, character := 0 },
                  endPos := { line := 1, character := 0 } }) ∧
    ({ start := { line := 5, character := 0 },
       endPos := { line := 1, character := 0 } } : Range) ≠
      { start := { line := 0, character := 0 }, endPos := { line := 0, character := 0 } } ∧
    ({ start := { line := 5, character := 0 },
       endPos := { line := 1, character := 0 } } : Range) ≠
      { start := { line := 0, character := 0 }, endPos := { line := 1, character := 0 } } := by
  decide

/-- Claim C3 as amended: when the context window is NOT clamped
(`contextBefore ≤ start`, `end + contextAfter + 1 ≤ lineCount`) and the
lines carry no `%` byte, create-then-recover on unmodified content reports
exactly the original selection in end-exclusive form: start line `s`
(character 0) to line `e + 1` (character 0). -/
theorem C3_amended (f : List DmpPatch → List Char → List Char × List Bool)
    (hf : GoDiffApplyOk f) (content : List Char) (s e : Nat)
    (h5 : contextBefore ≤ s) (hse : s ≤ e)
    (he : e + contextAfter + 1 ≤ (goSplit content).length)
    (h32 : e + contextAfter + 1 < 4294967296)
    (hp : ∀ l ∈ goSplit content, '%' ∉ l) :
    createThenRecover f content content s e =
      some (.ok { start := { line := s, character := 0 },
                  endPos := { line := e + 1, character := 0 } }) := by
  obtain ⟨txt, ds, hgen, hparse⟩ := patchFromText_generated content s e h5 hse he hp
  unfold createThenRecover
  rw [hgen]
  simp only [Option.map_some']
  have hres : (f [{ diffs := ds,
                    start1 := ((s - contextBefore : Nat) : Int),
                    start2 := ((s - contextBefore : Nat) : Int),
                    length1 := ((e + contextAfter + 1 - (s - contextBefore) : Nat) : Int),
                    length2 := ((e + contextAfter + 1 - (s - contextBefore) : Nat) : Int) }]
      content).2.length ≠ 0 := by
    intro h0
    have := (hf _ content).mp (List.length_eq_zero.mp h0)
    simp at this
  simp only [applyPatchAndGetPositions, hparse, hres]
  have h1 : toUInt32 (((s - contextBefore : Nat) : Int) + (contextBefore : Int)) = s := by
    have heq : ((s - contextBefore : Nat) : Int) + (contextBefore : Int) = ((s : Nat) : Int) := by
      omega
    rw [heq, toUInt32_ofNat s (by omega)]
  have h2 : toUInt32 (((s - contextBefore : Nat) : Int) +
      ((e + contextAfter + 1 - (s - contextBefore) : Nat) : Int) - (contextAfter : Int)) = e + 1 := by
    have heq : ((s - contextBefore : Nat) : Int) +
        ((e + contextAfter + 1 - (s - contextBefore) : Nat) : Int) - (contextAfter : Int) =
        ((e + 1 : Nat) : Int) := by
      omega
    rw [heq, toUInt32_ofNat (e + 1) (by omega)]
  rw [h1, h2]
  simp

/-- Witness for `C3_amended`: the spec scenario selection lines 10-12 of a
20-line file recovers at lines 10 to 13 (end-exclusive) on unmodified
content. -/
theorem C3_amended_witness :
    GoDiffApplyOk trivialApply ∧
    (∀ l ∈ goSplit content20, '%' ∉ l) ∧
    12 + contextAfter + 1 ≤ (goSplit content20).length ∧
    createThenRecover trivialApply content20 content20 10 12 =
      some (.ok { start := { line := 10, character := 0 },
                  endPos := { line := 13, character := 0 } }) :=
  ⟨trivialApply_ok, by decide, by decide,
   C3_amended trivialApply trivialApply_ok content20 10 12 (by decide) (by decide)
     (by decide) (by decide) (by decide)⟩

/-! ### Claim C10 -/

/-- Claim C10 (confirmed): for EVERY content and selection — including
selections at or beyond the last line — the patch-text generation succeeds:
the selection is clamped to the last line, the context window to the file
bounds, and every line index used is in bounds (`none` models a Go index
panic, and is never returned). -/
theorem C10_theorem (content : List Char) (s e : Nat) :
    (generateCommentPatchText content s e).isSome = true := by
  have hne := goSplit_ne_nil content
  have hcnt : 1 ≤ (goSplit content).length := by
    cases h : goSplit content with
    | nil => exact absurd h hne
    | cons a b => simp
  have hslb : (if s ≥ (goSplit content).length then (goSplit content).length - 1 else s) <
      (goSplit content).length := by
    split <;> omega
  have helb : (if e ≥ (goSplit content).length then (goSplit content).length - 1 else e) <
      (goSplit content).length := by
    split <;> omega
  obtain ⟨c1, hc1, -⟩ := patchLoopChunks_spec (goSplit content) ' '
    ((if s ≥ (goSplit content).length then (goSplit content).length - 1 else s) -
      ((if s ≥ (goSplit content).length then (goSplit content).length - 1 else s) - contextBefore))
    ((if s ≥ (goSplit content).length then (goSplit content).length - 1 else s) - contextBefore)
    (by omega)
  obtain ⟨c2, hc2, -⟩ := patchLoopChunks_spec (goSplit content) '-'
    ((if e ≥ (goSplit content).length then (goSplit content).length - 1 else e) + 1 -
      (if s ≥ (goSplit content).length then (goSplit content).length - 1 else s))
    (if s ≥ (goSplit content).length then (goSplit content).length - 1 else s)
    (by omega)
  obtain ⟨c3, hc3, -⟩ := patchLoopChunks_spec (goSplit content) '+'
    ((if e ≥ (goSplit content).length then (goSplit content).length - 1 else e) + 1 -
      (if s ≥ (goSplit content).length then (goSplit content).length - 1 else s))
    (if s ≥ (goSplit content).length then (goSplit content).length - 1 else s)
    (by omega)
  obtain ⟨c4, hc4, -⟩ := patchLoopChunks_spec (goSplit content) ' '
    (min ((if e ≥ (goSplit content).length then (goSplit content).length - 1 else e) +
        contextAfter + 1) (goSplit content).length -
      ((if e ≥ (goSplit content).length then (goSplit content).length - 1 else e) + 1))
    ((if e ≥ (goSplit content).length then (goSplit content).length - 1 else e) + 1)
    (by omega)
  simp only [generateCommentPatchText]
  rw [hc1, hc2, hc3, hc4]
  simp only [Option.bind_eq_bind, Option.some_bind]
  rfl
